import Mathlib

/-
  Verification development for the novel-reader content-acquisition core.

  Shallow embedding of:
  - the Legado-style rule engine `AnalyzeRule` (RuleEngine module),
  - the URL template expander `AnalyzeUrl`,
  - the scraping pipeline in `services/sourceParser.ts`
    (`RuleParser`, `searchBooks`, `getBookToc`, `getChapterContent`).

  JavaScript strings are modelled by Lean `String` (list of unicode scalar
  values).  JS `String.prototype` operations used by the source are modelled
  by the `js*` functions below; where the source cuts a string at the
  position of a found occurrence, code-point based cutting agrees with the
  UTF-16 based cutting JS performs, because both cut exactly at the
  occurrence.  Host facilities (the `RegExp` engine, `JSON.parse`,
  `new URL`, `fetch`, `cheerio` document queries) are modelled as explicit
  environment parameters: a theorem quantifying over the environment holds
  for every behaviour of the host facility.
-/

/- ### JavaScript string primitives -/

/-- The whitespace set used for `String.prototype.trim` (ASCII subset; the
source only ever trims rule strings and scraped text). -/
def jsWhitespace (c : Char) : Bool :=
  c = ' ' || c = '\t' || c = '\n' || c = '\r' || c = '\x0b' || c = '\x0c'

/-- JS `s.trim()`. -/
def jsTrim (s : String) : String :=
  ⟨((s.data.dropWhile jsWhitespace).reverse.dropWhile jsWhitespace).reverse⟩

/-- JS `s.startsWith(p)`. -/
def jsStartsWith (s p : String) : Bool :=
  p.data.isPrefixOf s.data

/-- JS `s.endsWith(p)`. -/
def jsEndsWith (s p : String) : Bool :=
  p.data.isSuffixOf s.data

/-- JS `s.substring(0, n)` (cut at a found occurrence, see header note). -/
def jsTake (s : String) (n : Nat) : String := ⟨s.data.take n⟩

/-- JS `s.substring(n)`. -/
def jsDrop (s : String) (n : Nat) : String := ⟨s.data.drop n⟩

/-- JS `s.slice(0, -n)`: drop the last `n` characters. -/
def jsDropRight (s : String) (n : Nat) : String :=
  ⟨s.data.take (s.data.length - n)⟩

/-- Splitting scanner for JS `s.split(sep)` with a non-empty literal
separator: leftmost, non-overlapping matches.  The fuel is an upper bound
on the number of scanning steps (each step consumes at least one character
of the remaining input); callers pass `length + 1`, which is always
sufficient, so the fuel-0 fallback is never reached. -/
def jsSplitOnAux (sep : List Char) : Nat → List Char → List Char → List (List Char)
  | 0, l, acc => [acc.reverse ++ l]
  | _ + 1, [], acc => [acc.reverse]
  | fuel + 1, c :: cs, acc =>
    if sep.isPrefixOf (c :: cs) then
      acc.reverse :: jsSplitOnAux sep fuel ((c :: cs).drop sep.length) []
    else
      jsSplitOnAux sep fuel cs (c :: acc)

/-- JS `s.split(sep)` for a non-empty separator. -/
def jsSplitOn (s sep : String) : List String :=
  (jsSplitOnAux sep.data (s.data.length + 1) s.data []).map fun l => ⟨l⟩

/-- JS `s.includes(sep)`, via the split (for a non-empty separator JS
guarantees `s.includes(sep) ↔ s.split(sep).length > 1`). -/
def jsIncludes (s sep : String) : Bool :=
  decide (1 < (jsSplitOn s sep).length)

/-- Replacement scanner for `s.replace(/lit/g, repl)` where the pattern is a
literal; fuel as in `jsSplitOnAux`. -/
def replaceAllAux (pat repl : List Char) : Nat → List Char → List Char
  | 0, l => l
  | _ + 1, [] => []
  | fuel + 1, c :: cs =>
    if pat.isPrefixOf (c :: cs) then
      repl ++ replaceAllAux pat repl fuel ((c :: cs).drop pat.length)
    else
      c :: replaceAllAux pat repl fuel cs

/-- JS `s.replace(new RegExp(escape(pat), 'g'), repl)` for a literal
pattern. -/
def replaceAllLit (s pat repl : String) : String :=
  if pat = "" then s else ⟨replaceAllAux pat.data repl.data (s.data.length + 1) s.data⟩

/-- Case-insensitive literal prefix test (ASCII folding; the `gi` patterns
of the source are ASCII). -/
def ciIsPrefixOf : List Char → List Char → Bool
  | [], _ => true
  | _ :: _, [] => false
  | p :: ps, c :: cs => (p.toLower = c.toLower) && ciIsPrefixOf ps cs

/-- Scanner for `s.replace(/lit/gi, repl)`. -/
def ciReplaceAllAux (pat repl : List Char) : Nat → List Char → List Char
  | 0, l => l
  | _ + 1, [] => []
  | fuel + 1, c :: cs =>
    if ciIsPrefixOf pat (c :: cs) then
      repl ++ ciReplaceAllAux pat repl fuel ((c :: cs).drop pat.length)
    else
      c :: ciReplaceAllAux pat repl fuel cs

/-- JS `s.replace(/lit/gi, repl)` for a literal pattern. -/
def ciReplaceAll (s pat repl : String) : String :=
  if pat = "" then s else ⟨ciReplaceAllAux pat.data repl.data (s.data.length + 1) s.data⟩

/-- Number of leftmost non-overlapping occurrences of a literal pattern. -/
def litCountAux (pat : List Char) : Nat → List Char → Nat
  | 0, _ => 0
  | _ + 1, [] => 0
  | fuel + 1, c :: cs =>
    if pat.isPrefixOf (c :: cs) then
      1 + litCountAux pat fuel ((c :: cs).drop pat.length)
    else
      litCountAux pat fuel cs

/-- JS `input.match(new RegExp(pat, 'g')) || []` for a literal
(metacharacter-free) pattern: every match equals the pattern itself. -/
def litMatches (pat input : String) : List String :=
  if pat = "" then []
  else List.replicate (litCountAux pat.data (input.data.length + 1) input.data) pat

/-- JS `s.lastIndexOf(c)` (as `Option`; `none` for JS `-1`). -/
def lastIndexOfChar (s : String) (c : Char) : Option Nat :=
  let rec go : List Char → Nat → Option Nat
    | [], _ => none
    | x :: xs, i =>
      match go xs (i + 1) with
      | some j => some j
      | none => if x = c then some i else none
  go s.data 0

/-- Hex digit (uppercase), as produced by `encodeURIComponent`. -/
def hexDigit (n : Nat) : Char :=
  "0123456789ABCDEF".data.getD n '0'

/-- UTF-8 bytes of a unicode scalar value. -/
def utf8Bytes (c : Char) : List Nat :=
  let v := c.toNat
  if v < 0x80 then [v]
  else if v < 0x800 then
    [0xC0 + v / 0x40, 0x80 + v % 0x40]
  else if v < 0x10000 then
    [0xE0 + v / 0x1000, 0x80 + (v / 0x40) % 0x40, 0x80 + v % 0x40]
  else
    [0xF0 + v / 0x40000, 0x80 + (v / 0x1000) % 0x40, 0x80 + (v / 0x40) % 0x40, 0x80 + v % 0x40]

/-- `%XX` encoding of one byte. -/
def pctByte (n : Nat) : String :=
  ⟨['%', hexDigit (n / 16), hexDigit (n % 16)]⟩

/-- The characters `encodeURIComponent` leaves unescaped. -/
def uriUnreserved (c : Char) : Bool :=
  c.isAlphanum || c = '-' || c = '_' || c = '.' || c = '!' || c = '~' ||
    c = '*' || c = Char.ofNat 39 || c = '(' || c = ')'

/-- JS `encodeURIComponent`.  (The JS function throws `URIError` only on
lone surrogates, which Lean `Char` cannot represent, so the model is
total.) -/
def encodeURIComponent (s : String) : String :=
  s.data.foldl
    (fun acc c =>
      acc ++ (if uriUnreserved c then ⟨[c]⟩ else String.join ((utf8Bytes c).map pctByte)))
    ""

/- ### Host-facility environment shared by the rule engine -/

/-- JSON values, as produced by the host `JSON.parse`.  Numbers are carried
as their printed form (`String(n)`), which is all the engine ever does with
them. -/
inductive JsonV where
  | null : JsonV
  | bool : Bool → JsonV
  | num : String → JsonV
  | str : String → JsonV
  | arr : List JsonV → JsonV
  | obj : List (String × JsonV) → JsonV
deriving Inhabited

mutual

/-- JS `String(v)` on a JSON value (`Array.prototype.toString` joins with
`,`, rendering `null` elements as the empty string; objects print as
`[object Object]`). -/
def jsString : JsonV → String
  | .null => "null"
  | .bool b => if b then "true" else "false"
  | .num r => r
  | .str s => s
  | .arr l => String.intercalate "," (jsStringElems l)
  | .obj _ => "[object Object]"

/-- Elementwise rendering used by `Array.prototype.join`. -/
def jsStringElems : List JsonV → List String
  | [] => []
  | .null :: vs => "" :: jsStringElems vs
  | v :: vs => jsString v :: jsStringElems vs

end

/-- JS truthiness of a JSON value (number truthiness read off its printed
form). -/
def jsTruthy : JsonV → Bool
  | .null => false
  | .bool b => b
  | .num r => !(r = "0" || r = "-0" || r = "NaN")
  | .str s => !s.isEmpty
  | .arr _ => true
  | .obj _ => true

/-- JS property read `v[key]` on a JSON value (`none` for `undefined`).
Arrays answer numeric indices and `length`; strings index their characters
and answer `length`; primitives have no own data properties. -/
def jsonIndex (v : JsonV) (key : String) : Option JsonV :=
  match v with
  | .obj fields => (fields.find? (fun kv => kv.1 = key)).map (·.2)
  | .arr l =>
    if key = "length" then some (.num (toString l.length))
    else if key ≠ "" && key.data.all Char.isDigit then l.get? key.toNat!
    else none
  | .str s =>
    if key = "length" then some (.num (toString s.length))
    else if key ≠ "" && key.data.all Char.isDigit then
      (s.data.get? key.toNat!).map (fun c => .str ⟨[c]⟩)
    else none
  | _ => none

/-- Abstract interface to the host facilities consumed by `AnalyzeRule`:
the `RegExp` engine, `JSON.parse`, and `new URL`. -/
structure REnv where
  /-- Does `new RegExp(pat)` compile (`false` models a thrown
  `SyntaxError`)? -/
  compile : String → Bool
  /-- `input.match(new RegExp(pat, 'g')) || []` (for a compiling
  pattern). -/
  rmatches : String → String → List String
  /-- `input.replace(new RegExp(pat, 'g'), repl)` (for a compiling
  pattern). -/
  rreplace : String → String → String → String
  /-- `JSON.parse` (`none` models a thrown `SyntaxError`). -/
  jsonParse : String → Option JsonV
  /-- The capture groups of the fixed pattern
  `\.replace\(['"](.+?)['"],\s*['"](.*)['"](?:\))` applied to a rule
  string (`none`: no match). -/
  replaceCaseMatch : String → Option (String × String)
  /-- `new URL(u, base).href` (`none` models a thrown `TypeError`). -/
  resolve : String → String → Option String

/- ### AnalyzeRule (RuleEngine module) -/

/-- A matched element as surfaced by the cheerio wrapper in
`executeCssRule`: raw (untrimmed) text, `html()` (nullable), raw
concatenation of the direct text nodes, and attribute lookup. -/
structure AElement where
  textRaw : String
  htmlRaw : Option String
  ownTextRaw : String
  attr : String → Option String

/-- The `AnalyzeRule` instance state: the raw content string, the base URL,
and the loaded cheerio handle (`none` outer layer: `this.$ === null`; the
inner `Option` models a selector `SyntaxError` thrown by `$(rule)`, which
`executeCssRule` catches). -/
structure ACtx where
  content : String
  baseUrl : String
  css : Option (String → Option (List AElement))

inductive RuleMode where
  | Default | Css | XPath | Json | Regex | Js
deriving DecidableEq, Inhabited

/-- `ParsedRule` of the RuleEngine module. -/
structure ParsedRule where
  mode : RuleMode
  rule : String
  param : Option String
  replaceRegex : Option String
  replacement : Option String
deriving Inhabited

/-- The trailing `@param` extraction at the end of `parseRule`:
`atIndex = rule.lastIndexOf('@'); if (atIndex > 0) …`. -/
def finishParse (mode : RuleMode) (rule : String) (rr rep : Option String) : ParsedRule :=
  match lastIndexOfChar rule '@' with
  | some i =>
    if 0 < i then
      { mode := mode, rule := jsTake rule i, param := some (jsDrop rule (i + 1)),
        replaceRegex := rr, replacement := rep }
    else
      { mode := mode, rule := rule, param := none, replaceRegex := rr, replacement := rep }
  | none => { mode := mode, rule := rule, param := none, replaceRegex := rr, replacement := rep }

/-- `AnalyzeRule.parseRule`: trim, classify the mode by prefix (the
`##` clause is examined only in the final `else if`), then extract the
trailing `@` parameter. -/
def parseRule (ruleStr : String) : ParsedRule :=
  let rule := jsTrim ruleStr
  if jsStartsWith rule "@css:" then
    finishParse .Css (jsDrop rule 5) none none
  else if jsStartsWith rule "@XPath:" || jsStartsWith rule "@xpath:" then
    finishParse .XPath (jsDrop rule 7) none none
  else if jsStartsWith rule "@json:" || jsStartsWith rule "$." then
    finishParse .Json (if jsStartsWith rule "@json:" then jsDrop rule 6 else rule) none none
  else if jsStartsWith rule "\x7b\x7b" && jsEndsWith rule "\x7d\x7d" then
    finishParse .Js (jsDropRight (jsDrop rule 2) 2) none none
  else if jsIncludes rule "##" then
    let parts := jsSplitOn rule "##"
    if 3 ≤ parts.length then
      -- rule##regex##replacement (parts beyond the third are dropped);
      -- `parts[2] || ''` collapses an empty third part to ''
      finishParse .Default (parts.getD 0 "") (some (parts.getD 1 ""))
        (some (parts.getD 2 ""))
    else
      -- exactly one '##': whole-content regex mode, selector part dropped
      finishParse .Regex (parts.getD 1 "") none none
  else
    finishParse .Default rule none none

/-- `AnalyzeRule.executeCssRule` (the cheerio query and per-element
extraction; a selector error is caught and yields the empty list). -/
def executeCssRule (ctx : ACtx) (env : REnv) (rule : String) (param : Option String) :
    List String :=
  match ctx.css with
  | none => []
  | some q =>
    match q rule with
    | none => []
    | some els =>
      els.foldl
        (fun acc el =>
          let value :=
            match param with
            | some "text" | some "textNodes" => jsTrim el.textRaw
            | some "html" | some "innerHtml" => el.htmlRaw.getD ""
            | some "ownText" => jsTrim el.ownTextRaw
            | some "href" =>
              let v := (el.attr "href").getD ""
              if v ≠ "" && !jsStartsWith v "http" && ctx.baseUrl ≠ "" then
                (env.resolve v ctx.baseUrl).getD v
              else v
            | some "src" =>
              let v := (el.attr "src").getD ""
              if v ≠ "" && !jsStartsWith v "http" && ctx.baseUrl ≠ "" then
                (env.resolve v ctx.baseUrl).getD v
              else v
            | some p => (el.attr p).getD ""
            | none => jsTrim el.textRaw
          if value ≠ "" then acc ++ [value] else acc)
        []

/-- `AnalyzeRule.executeRegexRule` (the content is a string in this model;
a non-compiling pattern is a caught `SyntaxError`). -/
def executeRegexRule (ctx : ACtx) (env : REnv) (rule : String) : List String :=
  if env.compile rule then env.rmatches rule ctx.content else []

/-- The JSONPath key list: strip `/^\$\.?/`, split on `/[\.\[\]]+/`,
`filter(Boolean)`. -/
def jsonPathKeys (rule : String) : List String :=
  let r :=
    if jsStartsWith rule "$." then jsDrop rule 2
    else if jsStartsWith rule "$" then jsDrop rule 1
    else rule
  let isSep (c : Char) : Bool := c = '.' || c = '[' || c = ']'
  let rec split : List Char → List Char → List String
    | [], acc => if acc.isEmpty then [] else [⟨acc.reverse⟩]
    | c :: cs, acc =>
      if isSep c then
        (if acc.isEmpty then split cs [] else ⟨acc.reverse⟩ :: split cs [])
      else split cs (c :: acc)
  split r.data []

/-- The path-walking loop of `executeJsonRule`: `*` returns immediately
(array elements stringified, or nothing); other keys index; `undefined`
aborts; after the loop an array maps to its stringified elements and a
truthy scalar to a singleton. -/
def jsonWalk : JsonV → List String → List String
  | data, [] =>
    match data with
    | .arr l => jsStringElems l
    | v => if jsTruthy v then [jsString v] else []
  | data, key :: ks =>
    if key = "*" then
      match data with
      | .arr l => jsStringElems l
      | _ => []
    else
      match jsonIndex data key with
      | none => []
      | some v => jsonWalk v ks

/-- `AnalyzeRule.executeJsonRule`. -/
def executeJsonRule (ctx : ACtx) (env : REnv) (rule : String) : List String :=
  match env.jsonParse ctx.content with
  | none => []
  | some data => jsonWalk data (jsonPathKeys rule)

/-- `AnalyzeRule.executeJsRule`: the pattern-matched special cases
(`result`, `result.…replace(...)`); everything else yields nothing. -/
def executeJsRule (ctx : ACtx) (env : REnv) (rule : String) : List String :=
  if rule = "result" then [ctx.content]
  else if jsIncludes rule "result." then
    if jsIncludes rule ".replace(" then
      match env.replaceCaseMatch rule with
      | some (pat, rep) =>
        if env.compile pat then [env.rreplace pat ctx.content rep] else []
      | none => []
    else []
  else []

/-- `AnalyzeRule.executeRule`: mode dispatch (XPath approximated by CSS),
the optional trailing regex replacement (skipped whole if the pattern does
not compile), and the final blank filter `r && r.trim()`. -/
def executeRule (ctx : ACtx) (env : REnv) (parsed : ParsedRule) : List String :=
  let results :=
    match parsed.mode with
    | .Css | .Default | .XPath => executeCssRule ctx env parsed.rule parsed.param
    | .Json => executeJsonRule ctx env parsed.rule
    | .Regex => executeRegexRule ctx env parsed.rule
    | .Js => executeJsRule ctx env parsed.rule
  let results :=
    match parsed.replaceRegex with
    | some rr =>
      if env.compile rr then
        results.map (fun r => env.rreplace rr r (parsed.replacement.getD ""))
      else results
    | none => results
  results.filter (fun r => decide (r ≠ "" ∧ jsTrim r ≠ ""))

/-- Single-rule evaluation including the `!ruleStr` falsy guard of
`getStringList` (the recursive calls of the combinator branches re-enter
through this guard). -/
def gslBase (ctx : ACtx) (env : REnv) (s : String) : List String :=
  if s = "" then [] else executeRule ctx env (parseRule s)

/-- `getStringList` restricted to rule strings containing no top-level
`||` — exactly the shape of the pieces produced by the `||` split
(`String.prototype.split` pieces never contain the separator, and
trimming cannot introduce one).  Pieces of the `&&` split contain neither
separator, so they evaluate through `gslBase`. -/
def gslNoOr (ctx : ACtx) (env : REnv) (s : String) : List String :=
  if s = "" then []
  else if jsIncludes s "&&" then
    ((jsSplitOn s "&&").map (fun p => gslBase ctx env (jsTrim p))).flatten
  else executeRule ctx env (parseRule s)

/-- First split result with at least one element, else `[]` (the `||`
loop of `getStringList`). -/
def firstNonemptyL : List (List String) → List String
  | [] => []
  | l :: ls => if l.isEmpty then firstNonemptyL ls else l

/-- `AnalyzeRule.getStringList`.  The source recurses through
`this.getStringList(rule.trim())` on the split pieces; since a piece of a
`||` split never contains `||` and a piece of a `&&` split contains
neither combinator, the recursion is stratified here into
`getStringList → gslNoOr → gslBase` without changing its value. -/
def getStringList (ctx : ACtx) (env : REnv) (ruleStr : String) : List String :=
  if ruleStr = "" then []
  else if jsIncludes ruleStr "||" then
    firstNonemptyL ((jsSplitOn ruleStr "||").map (fun p => gslNoOr ctx env (jsTrim p)))
  else gslNoOr ctx env ruleStr

/-- `AnalyzeRule.getAbsoluteUrl`.  `resolve` is the host
`u ↦ new URL(u, this.baseUrl).href` for this instance's base URL (`none`
models the caught `TypeError`). -/
def getAbsoluteUrl (resolve : String → Option String) (url : String) : String :=
  if url = "" then ""
  else if jsStartsWith url "http" then url
  else if jsStartsWith url "//" then "https:" ++ url
  else
    match resolve url with
    | some r => r
    | none => url

/- ### AnalyzeUrl (URL template expander) -/

/-- The options object of the legado-style `url,{...}` form, as produced by
the host `JSON.parse`. -/
structure UrlJsonOptions where
  method : Option String
  body : Option String
  headers : Option (List (String × String))

/-- Host facilities consumed by `AnalyzeUrl.analyze`: `JSON.parse` of the
custom-headers string and of the inline options object, and `new URL`. -/
structure UEnv where
  parseHeaders : String → Option (List (String × String))
  parseOptions : String → Option UrlJsonOptions
  resolve : String → String → Option String

/-- The expansion result `UrlOptions`. -/
structure UrlOptions where
  method : String
  url : String
  body : Option String
  headers : List (String × String)
deriving DecidableEq

/-- The default desktop User-Agent header of `AnalyzeUrl`. -/
def analyzeUrlUA : String :=
  "Mozilla/5.0 (Windows NT 10.0; Win64; x64) AppleWebKit/537.36 (KHTML, like Gecko) Chrome/120.0.0.0 Safari/537.36"

/-- Object spread `{...base, ...extra}`: keys of `extra` win. -/
def mergeHeaders (base extra : List (String × String)) : List (String × String) :=
  base.filter (fun kv => (extra.find? (fun kv2 => kv2.1 = kv.1)).isNone) ++ extra

/-- The `<start,end>` pagination marker scanner: each occurrence of
`<digits,digits>` is replaced by `String(parseInt(start) + (page - 1))`
(page is 1-based). -/
def replacePageMarkerAux (page : Nat) : Nat → List Char → List Char
  | 0, l => l
  | _ + 1, [] => []
  | fuel + 1, c :: cs =>
    if c = '<' then
      let ds1 := cs.takeWhile Char.isDigit
      let rest1 := cs.dropWhile Char.isDigit
      match ds1, rest1 with
      | _ :: _, ',' :: rest2 =>
        let ds2 := rest2.takeWhile Char.isDigit
        let rest3 := rest2.dropWhile Char.isDigit
        match ds2, rest3 with
        | _ :: _, '>' :: rest4 =>
          (toString ((String.mk ds1).toNat! + (page - 1))).data ++
            replacePageMarkerAux page fuel rest4
        | _, _ => c :: replacePageMarkerAux page fuel cs
      | _, _ => c :: replacePageMarkerAux page fuel cs
    else c :: replacePageMarkerAux page fuel cs

/-- `str.replace(/<(\d+),(\d+)>/g, …)`. -/
def replacePageMarker (page : Nat) (s : String) : String :=
  ⟨replacePageMarkerAux page (s.data.length + 1) s.data⟩

/-- `AnalyzeUrl.replaceVariables`: the substitution chain, in source
order. -/
def replaceVariables (key : String) (page : Nat) (s : String) : String :=
  let enc := encodeURIComponent key
  let pg := toString page
  let s := ciReplaceAll s "{{key}}" enc
  let s := ciReplaceAll s "{{searchKey}}" enc
  let s := ciReplaceAll s "{{page}}" pg
  let s := ciReplaceAll s "{{searchPage}}" pg
  let s := ciReplaceAll s "${key}" enc
  let s := ciReplaceAll s "${page}" pg
  let s := replaceAllLit s "searchKey" enc
  let s := replaceAllLit s "searchPage" pg
  replacePageMarker page s

/-- First index of the two-character sequence `,{` (JS `url.indexOf(',{')`,
as `Option`). -/
def indexOfSub (s sub : String) : Option Nat :=
  let rec go : List Char → Nat → Option Nat
    | [], _ => none
    | c :: cs, i => if sub.data.isPrefixOf (c :: cs) then some i else go cs (i + 1)
  go s.data 0

/-- `AnalyzeUrl.analyze`: default UA header, optional custom headers,
the legado `url,{...}` POST form, the simple `url@body` POST form,
variable substitution, and relative-URL resolution. -/
def analyzeUrl (env : UEnv) (urlTemplate baseUrl key : String) (page : Nat)
    (headersStr : Option String) : UrlOptions :=
  let headers0 := [("User-Agent", analyzeUrlUA)]
  let headers1 :=
    match headersStr with
    | some h =>
      match env.parseHeaders h with
      | some custom => mergeHeaders headers0 custom
      | none => headers0
    | none => headers0
  let st :=
    match indexOfSub urlTemplate ",\x7b" with
    | some i =>
      -- legado form: url,{"method":"POST","body":"...","headers":{...}}
      let optionStr := jsDrop urlTemplate (i + 1)
      let url := jsTake urlTemplate i
      match env.parseOptions optionStr with
      | some opts =>
        let method := if (opts.method.getD "").toUpper = "POST" then "POST" else "GET"
        let body :=
          match opts.body with
          | some b => if b ≠ "" then some (replaceVariables key page b) else none
          | none => none
        let headers :=
          match opts.headers with
          | some hs => mergeHeaders headers1 hs
          | none => headers1
        (method, url, body, headers)
      | none => ("GET", url, none, headers1)
    | none =>
      match indexOfSub urlTemplate "@" with
      | some i =>
        -- simple form: url@body
        let body := jsDrop urlTemplate (i + 1)
        let url := jsTake urlTemplate i
        ("POST", url, some (replaceVariables key page body), headers1)
      | none => ("GET", urlTemplate, none, headers1)
  let (method, url0, body, headers) := st
  let url1 := replaceVariables key page url0
  let url2 :=
    if !jsStartsWith url1 "http" && baseUrl ≠ "" then
      (env.resolve url1 baseUrl).getD url1
    else url1
  { method := method, url := url2, body := body, headers := headers }

/- ### sourceParser.ts: RuleParser and the scraping pipeline -/

/-- A thrown JS exception (the payload is never inspected by the catch
boundaries of the pipeline). -/
abbrev JsE := Except Unit

/-- The aggregate view of a cheerio matched set used by
`RuleParser.parseRule`: `length`, concatenated `text()`, `html()` of the
first element, and `attr` of the first element. -/
structure CQuery where
  len : Nat
  textRaw : String
  htmlRaw : Option String
  attr : String → Option String

/-- A list-item context element (an entry of `parseRuleList`):
itself as a matched set, plus `element.find(selector)` (`.error` models a
selector `SyntaxError`, which `parseRule` does NOT catch). -/
structure CNode where
  self : CQuery
  find : String → JsE CQuery

/-- A loaded cheerio document: the root context, the global query used by
`parseRuleList` (`.error` models a selector `SyntaxError`), and the host
`new URL(u, base).href`. -/
structure CDoc where
  root : CNode
  queryList : String → JsE (List CNode)
  resolve : String → String → Option String

/-- A `RuleParser` instance (`new RuleParser(html, baseUrl)` loads the
document). -/
structure RuleParser where
  doc : CDoc
  baseUrl : String

/-- The trailing `@attr` suffix match `/@(\w+)$/` of `RuleParser.parseRule`:
returns the remaining rule (trimmed when a suffix was removed) and the
attribute name (defaulting to `text`).  JS `\w` is `[A-Za-z0-9_]`. -/
def matchAttrSuffix (rule : String) : String × String :=
  let isWord (c : Char) : Bool := c.isAlphanum || c = '_'
  let revWord := rule.data.reverse.takeWhile isWord
  let rest := rule.data.reverse.dropWhile isWord
  match revWord, rest with
  | _ :: _, '@' :: before => (jsTrim ⟨before.reverse⟩, ⟨revWord.reverse⟩)
  | _, _ => (rule, "text")

/-- The single-rule body of `RuleParser.parseRule` (no `||` in `rule`):
strip `@css:`, extract the `@attr` suffix, query, extract, and resolve
relative `src`/`href` values (a `new URL` error is caught, keeping the
value). -/
def parseRuleSingle (rp : RuleParser) (rule : String) (ctx : Option CNode) : JsE String := do
  let element := ctx.getD rp.doc.root
  let rule := if jsStartsWith rule "@css:" then jsDrop rule 5 else rule
  let (rule, attr) := matchAttrSuffix rule
  let el ← if rule ≠ "" then element.find rule else pure element.self
  if el.len = 0 then return ""
  let value :=
    match attr with
    | "text" => jsTrim el.textRaw
    | "html" => el.htmlRaw.getD ""
    | a => (el.attr a).getD ""
  if (attr = "src" || attr = "href") && value ≠ "" && !jsStartsWith value "http" then
    return (rp.doc.resolve value rp.baseUrl).getD value
  return value

/-- The `||` fallback loop of `RuleParser.parseRule`: first truthy
(non-empty) result wins; a thrown selector error propagates. -/
def firstTruthyE : List (JsE String) → JsE String
  | [] => pure ""
  | x :: xs => do
    let r ← x
    if r ≠ "" then pure r else firstTruthyE xs

/-- `RuleParser.parseRule`.  The recursion on the `||` pieces re-enters
through the `!rule` falsy guard with a trimmed piece; pieces of the split
never contain `||`, so the recursion reduces to the single-rule body. -/
def RuleParser.parseRule (rp : RuleParser) (rule : Option String) (ctx : Option CNode) :
    JsE String :=
  match rule with
  | none => pure ""
  | some r =>
    if r = "" then pure ""
    else if jsIncludes r "||" then
      firstTruthyE ((jsSplitOn r "||").map fun p =>
        if jsTrim p = "" then pure "" else parseRuleSingle rp (jsTrim p) ctx)
    else parseRuleSingle rp r ctx

/-- `RuleParser.parseRuleList`. -/
def RuleParser.parseRuleList (rp : RuleParser) (rule : Option String) : JsE (List CNode) :=
  match rule with
  | none => pure []
  | some r =>
    if r = "" then pure []
    else
      let r := if jsStartsWith r "@css:" then jsDrop r 5 else r
      rp.doc.queryList r

/-- `RuleParser.getAbsoluteUrl` (note: unlike the RuleEngine variant, a
falsy url is returned as-is and there is no `//` rewrite). -/
def RuleParser.getAbsoluteUrl (rp : RuleParser) (url : String) : String :=
  if url = "" || jsStartsWith url "http" then url
  else (rp.doc.resolve url rp.baseUrl).getD url

/-- Sequential effectful map with exception propagation (the per-element
loops of the pipeline: every iteration evaluates all fields; a thrown
selector error aborts the pipeline call into its catch boundary). -/
def mapME (f : α → JsE β) : List α → JsE (List β)
  | [] => pure []
  | a :: as => do
    let b ← f a
    let bs ← mapME f as
    pure (b :: bs)

/-- Pairing with the 0-based position, as `forEach((el, index) => …)`
provides it. -/
def idxFrom (n : Nat) : List α → List (Nat × α)
  | [] => []
  | a :: as => (n, a) :: idxFrom (n + 1) as

/-- A request as assembled by the pipeline for `fetchWithTimeout` (the
User-Agent default is added inside the fetch helper and not modelled). -/
structure FetchReq where
  url : String
  method : String
  body : Option String
  headers : List (String × String)

/-- Host facilities of the scraping pipeline: `cheerio.load`, the network
fetch (`.error` models a rejected fetch: unreachable host, timeout, …),
`JSON.parse` of the source's `header` field, and the `RegExp` engine used
by the `replaceRegex` pass of `getChapterContent`. -/
structure SPEnv where
  load : String → CDoc
  fetch : FetchReq → Except Unit String
  parseHeaders : String → Option (List (String × String))
  compile : String → Bool
  rreplace : String → String → String → String

/-- The `ruleSearch` rule group (fields used by `searchBooks`). -/
structure RuleSearch where
  bookList : Option String
  name : Option String
  author : Option String
  intro : Option String
  kind : Option String
  lastChapter : Option String
  wordCount : Option String
  coverUrl : Option String
  bookUrl : Option String

/-- The `ruleToc` rule group. -/
structure RuleToc where
  chapterList : Option String
  chapterName : Option String
  chapterUrl : Option String

/-- The `ruleContent` rule group. -/
structure RuleContent where
  content : Option String
  replaceRegex : Option String

/-- The `BookSource` fields consumed by the embedded pipeline
operations. -/
structure BookSource where
  id : String
  bookSourceName : String
  bookSourceUrl : String
  searchUrl : Option String
  header : Option String
  ruleSearch : Option RuleSearch
  ruleToc : Option RuleToc
  ruleContent : Option RuleContent

/-- A scraped search-result record (`Partial<Book>` as assembled by
`searchBooks`; absent extractions are empty strings, as `parseRule`
returns `''`). -/
structure ScrapedBook where
  sourceId : String
  sourceName : String
  name : String
  author : String
  intro : String
  kind : String
  latestChapterTitle : String
  wordCount : String
  coverUrl : String
  bookUrl : String
deriving DecidableEq

/-- A shelf book as consumed by `getBookToc`. -/
structure Book where
  id : String
  bookUrl : String
  tocUrl : Option String

/-- A chapter record as assembled by `getBookToc`. -/
structure BookChapter where
  id : String
  bookId : String
  index : Nat
  title : String
  url : String
deriving DecidableEq

/-- The outcome of a `searchBooks` call, together with whether the network
fetch was reached (the structural-validation guard returns before any
fetch). -/
structure SearchOutcome where
  books : List ScrapedBook
  fetchPerformed : Bool
deriving DecidableEq

/-- One iteration of the search result loop: extract every field of the
candidate book from the list-item context. -/
def extractSearchBook (parser : RuleParser) (source : BookSource) (rule : RuleSearch)
    (el : CNode) : JsE ScrapedBook := do
  let name ← parser.parseRule rule.name (some el)
  let author ← parser.parseRule rule.author (some el)
  let intro ← parser.parseRule rule.intro (some el)
  let kind ← parser.parseRule rule.kind (some el)
  let latest ← parser.parseRule rule.lastChapter (some el)
  let wc ← parser.parseRule rule.wordCount (some el)
  let cover ← parser.parseRule rule.coverUrl (some el)
  let burl ← parser.parseRule rule.bookUrl (some el)
  pure { sourceId := source.id, sourceName := source.bookSourceName, name := name,
         author := author, intro := intro, kind := kind, latestChapterTitle := latest,
         wordCount := wc, coverUrl := parser.getAbsoluteUrl cover,
         bookUrl := parser.getAbsoluteUrl burl }

/-- The validity filter of `searchBooks`:
`if (book.name && book.bookUrl) books.push(book)`. -/
def validBook (b : ScrapedBook) : Bool :=
  decide (b.name ≠ "" ∧ b.bookUrl ≠ "")

/-- The request assembled by the `try` body of `searchBooks` before the
fetch: `{{key}}`/`{{page}}` substituted into the search URL, the `url@body`
POST form recognised (`const [baseUrl, body] = url.split('@')`, extra
parts dropped), and the source's custom headers merged. -/
def searchRequest (env : SPEnv) (source : BookSource) (keyword su : String) : FetchReq :=
  let enc := encodeURIComponent keyword
  let url0 := replaceAllLit (replaceAllLit su "{{key}}" enc) "{{page}}" "1"
  let (url1, method, body, headers0) :=
    if jsIncludes url0 "@" then
      let parts := jsSplitOn url0 "@"
      (parts.getD 0 "", "POST", some (replaceAllLit (parts.getD 1 "") "{{key}}" enc),
        [("Content-Type", "application/x-www-form-urlencoded")])
    else (url0, "GET", none, ([] : List (String × String)))
  let headers :=
    match source.header with
    | some h =>
      if h = "" then headers0
      else
        match env.parseHeaders h with
        | some custom => mergeHeaders headers0 custom
        | none => headers0
    | none => headers0
  ⟨url1, method, body, headers⟩

/-- The extraction loop of `searchBooks` over the fetched page: one
candidate per `bookList` element, keeping the valid ones. -/
def searchParse (env : SPEnv) (source : BookSource) (rule : RuleSearch) (html : String) :
    JsE (List ScrapedBook) :=
  let parser : RuleParser := ⟨env.load html, source.bookSourceUrl⟩
  do
    let els ← parser.parseRuleList rule.bookList
    let bs ← mapME (extractSearchBook parser source rule) els
    pure (bs.filter validBook)

/-- `searchBooks`.  Structure: the structural-validation guard
(`!source.searchUrl || !source.ruleSearch`) returns `[]` before any fetch;
the `try` body builds the request, fetches, and extracts; the `catch`
boundary turns a rejected fetch or a thrown selector error into `[]`.
(`updateSourceRespondTime` is a persistence side effect with no bearing on
the returned value and is not modelled.) -/
def searchBooks (env : SPEnv) (source : BookSource) (keyword : String) : SearchOutcome :=
  match source.searchUrl with
  | none => ⟨[], false⟩
  | some su =>
    if su = "" then ⟨[], false⟩
    else
      match source.ruleSearch with
      | none => ⟨[], false⟩
      | some rule =>
        match env.fetch (searchRequest env source keyword su) with
        | .error _ => ⟨[], true⟩
        | .ok html =>
          match searchParse env source rule html with
          | .ok books => ⟨books, true⟩
          | .error _ => ⟨[], true⟩

/-- `book.tocUrl || book.bookUrl`. -/
def tocUrlOf (b : Book) : String :=
  match b.tocUrl with
  | some t => if t = "" then b.bookUrl else t
  | none => b.bookUrl

/-- One iteration of the chapter loop of `getBookToc`: the chapter id and
`index` come from the element's position `i` in the matched list. -/
def chapterOfElem (parser : RuleParser) (rule : RuleToc) (bookId : String)
    (i : Nat) (el : CNode) : JsE BookChapter := do
  let title ← parser.parseRule rule.chapterName (some el)
  let url ← parser.parseRule rule.chapterUrl (some el)
  pure { id := bookId ++ "_" ++ toString i, bookId := bookId, index := i,
         title := title, url := parser.getAbsoluteUrl url }

/-- The validity filter of `getBookToc`:
`if (chapter.title && chapter.url) chapters.push(chapter)`. -/
def validChapter (c : BookChapter) : Bool :=
  decide (c.title ≠ "" ∧ c.url ≠ "")

/-- The chapter loop of `getBookToc` over the fetched page: one chapter
per `chapterList` element, indexed by its position among ALL matched
elements, then the invalid ones dropped. -/
def tocParse (env : SPEnv) (source : BookSource) (rule : RuleToc) (bookId : String)
    (html : String) : JsE (List BookChapter) :=
  let parser : RuleParser := ⟨env.load html, source.bookSourceUrl⟩
  do
    let els ← parser.parseRuleList rule.chapterList
    let cs ← mapME (fun p => chapterOfElem parser rule bookId p.1 p.2) (idxFrom 0 els)
    pure (cs.filter validChapter)

/-- `getBookToc`: guard on `ruleToc`, fetch `book.tocUrl || book.bookUrl`,
build one chapter per `chapterList` element with its position as `index`,
then drop the invalid ones; the catch boundary yields `[]`. -/
def getBookToc (env : SPEnv) (source : BookSource) (book : Book) : List BookChapter :=
  match source.ruleToc with
  | none => []
  | some rule =>
    match env.fetch ⟨tocUrlOf book, "GET", none, []⟩ with
    | .error _ => []
    | .ok html =>
      match tocParse env source rule book.id html with
      | .ok chapters => chapters
      | .error _ => []

/-- Scanner for `/<br\s*\/?>/gi`: `<br`, optional whitespace, optional `/`,
then `>`, replaced by a newline. -/
def replaceBrAux : Nat → List Char → List Char
  | 0, l => l
  | _ + 1, [] => []
  | fuel + 1, c :: cs =>
    match c :: cs with
    | '<' :: b :: r :: rest =>
      if (b = 'b' || b = 'B') && (r = 'r' || r = 'R') then
        let after := rest.dropWhile jsWhitespace
        match after with
        | '>' :: rest2 => '\n' :: replaceBrAux fuel rest2
        | '/' :: '>' :: rest2 => '\n' :: replaceBrAux fuel rest2
        | _ => c :: replaceBrAux fuel cs
      else c :: replaceBrAux fuel cs
    | _ => c :: replaceBrAux fuel cs

/-- `content.replace(/<br\s*\/?>/gi, '\n')`. -/
def replaceBr (s : String) : String :=
  ⟨replaceBrAux (s.data.length + 1) s.data⟩

/-- Scanner for `/<[^>]+>/g`: a `<`, one or more non-`>` characters, and
the first following `>`, removed. -/
def stripTagsAux : Nat → List Char → List Char
  | 0, l => l
  | _ + 1, [] => []
  | fuel + 1, c :: cs =>
    if c = '<' then
      let inside := cs.takeWhile (fun x => x ≠ '>')
      let rest := cs.dropWhile (fun x => x ≠ '>')
      match inside, rest with
      | _ :: _, '>' :: rest2 => stripTagsAux fuel rest2
      | _, _ => c :: stripTagsAux fuel cs
    else c :: stripTagsAux fuel cs

/-- `content.replace(/<[^>]+>/g, '')`. -/
def stripTags (s : String) : String :=
  ⟨stripTagsAux (s.data.length + 1) s.data⟩

/-- Scanner for `/\n{3,}/g → '\n\n'`: a run of 3 or more newlines collapses
to two. -/
def collapseNewlinesAux : Nat → List Char → List Char
  | 0, l => l
  | _ + 1, [] => []
  | fuel + 1, c :: cs =>
    if c = '\n' then
      let run := 1 + (cs.takeWhile (fun x => x = '\n')).length
      let rest := cs.dropWhile (fun x => x = '\n')
      if 3 ≤ run then '\n' :: '\n' :: collapseNewlinesAux fuel rest
      else List.replicate run '\n' ++ collapseNewlinesAux fuel rest
    else c :: collapseNewlinesAux fuel cs

/-- `content.replace(/\n{3,}/g, '\n\n')`. -/
def collapseNewlines (s : String) : String :=
  ⟨collapseNewlinesAux (s.data.length + 1) s.data⟩

/-- The generic cleanup pass of `getChapterContent`, in source order:
`<br>`→newline, `<p>`→newline, `</p>` removed, remaining tags stripped,
the four entities unescaped, runs of 3+ newlines collapsed to 2, and a
final trim. -/
def cleanContent (s : String) : String :=
  let s := replaceBr s
  let s := ciReplaceAll s "<p>" "\n"
  let s := ciReplaceAll s "</p>" ""
  let s := stripTags s
  let s := replaceAllLit s "&nbsp;" " "
  let s := replaceAllLit s "&lt;" "<"
  let s := replaceAllLit s "&gt;" ">"
  let s := replaceAllLit s "&amp;" "&"
  let s := collapseNewlines s
  jsTrim s

/-- The `replaceRegex` pass of `getChapterContent`: `##`-separated
`pattern@@replacement` pairs applied in order as global substitutions; a
non-compiling pattern throws into the surrounding catch, keeping the
substitutions applied so far. -/
def applyReplaceRules (env : SPEnv) (rr : String) (content : String) : String :=
  let rec go : List String → String → String
    | [], c => c
    | r :: rs, c =>
      let parts := jsSplitOn r "@@"
      let pattern := parts.getD 0 ""
      let replacement := parts.getD 1 ""
      if pattern ≠ "" then
        if env.compile pattern then go rs (env.rreplace pattern c replacement)
        else c
      else go rs c
  go (jsSplitOn rr "##") content

/-- `getChapterContent`: guard on `ruleContent`, fetch `chapter.url`,
extract `content`, apply the generic cleanup, then the rule's own
`replaceRegex` pairs; every failure path yields `""`. -/
def getChapterContent (env : SPEnv) (source : BookSource) (chapter : BookChapter) : String :=
  match source.ruleContent with
  | none => ""
  | some rule =>
    match env.fetch ⟨chapter.url, "GET", none, []⟩ with
    | .error _ => ""
    | .ok html =>
      let parser : RuleParser := ⟨env.load html, source.bookSourceUrl⟩
      match parser.parseRule rule.content none with
      | .error _ => ""
      | .ok raw =>
        let content := cleanContent raw
        match rule.replaceRegex with
        | some rr => applyReplaceRules env rr content
        | none => content

/- ### Concrete instantiations used by the witness theorems -/

/-- A concrete instantiation of the host RegExp engine, restricted to
metacharacter-free patterns (on which JS `RegExp` behaves literally):
every pattern compiles, matching and replacement are literal.  The
concrete rules evaluated below use only such patterns. -/
def envLit : REnv :=
  { compile := fun _ => true
    rmatches := fun pat input => litMatches pat input
    rreplace := fun pat input repl => replaceAllLit input pat repl
    jsonParse := fun _ => none
    replaceCaseMatch := fun _ => none
    resolve := fun _ _ => none }

/-- An element whose trimmed text is `Foo`. -/
def elemFoo : AElement := ⟨"Foo", none, "Foo", fun _ => none⟩

/-- An element whose trimmed text is `Bar`. -/
def elemBar : AElement := ⟨"Bar", none, "Bar", fun _ => none⟩

/-- A document with one `.a` element (text `Foo`) and one `.b` element
(text `Bar`); every other selector matches nothing. -/
def ctxAB : ACtx :=
  ⟨"", "http://e.test/",
    some (fun sel => some (if sel = ".a" then [elemFoo] else if sel = ".b" then [elemBar] else []))⟩

/-- A document whose raw content is `aa` and with no matching elements. -/
def ctxRaw : ACtx := ⟨"aa", "", some (fun _ => some [])⟩

/-- A URL resolver that always fails (every input is unresolvable). -/
def noResolve : String → Option String := fun _ => none

/-- The trivial host environment for `AnalyzeUrl` (no custom headers or
options objects are parsed, no relative resolution). -/
def uenvTriv : UEnv := ⟨fun _ => none, fun _ => none, fun _ _ => none⟩

/-- The empty cheerio matched set. -/
def emptyQ : CQuery := ⟨0, "", none, fun _ => none⟩

/-- A root context matching nothing. -/
def rootNode : CNode := ⟨emptyQ, fun _ => .ok emptyQ⟩

/-- A document with no content at all. -/
def emptyDoc : CDoc := ⟨rootNode, fun _ => .ok [], fun _ _ => none⟩

/-- A pipeline environment whose every fetch is rejected (unreachable
host / timeout). -/
def envFailFetch : SPEnv :=
  ⟨fun _ => emptyDoc, fun _ => .error (), fun _ => none, fun _ => true,
    fun pat input repl => replaceAllLit input pat repl⟩

/-- The `.title` matched set of the search fixture: text ` T1 `, href
`http://s/b1`. -/
def titleQ : CQuery :=
  ⟨1, " T1 ", none, fun a => if a = "href" then some "http://s/b1" else none⟩

/-- A search-result list item containing a `.title` anchor. -/
def itemNode : CNode :=
  ⟨⟨1, "item", none, fun _ => none⟩,
    fun sel => .ok (if sel = ".title" then titleQ else emptyQ)⟩

/-- A search page with one `.item` element. -/
def searchDoc : CDoc :=
  ⟨rootNode, fun sel => .ok (if sel = ".item" then [itemNode] else []), fun _ _ => none⟩

/-- A pipeline environment serving the search fixture page. -/
def envSearch : SPEnv :=
  ⟨fun _ => searchDoc, fun _ => .ok "page", fun _ => none, fun _ => true,
    fun pat input repl => replaceAllLit input pat repl⟩

/-- The search rule group of the fixture source. -/
def ruleSFix : RuleSearch :=
  ⟨some ".item", some ".title", none, none, none, none, none, none, some ".title@href"⟩

/-- The fixture search source. -/
def srcSFix : BookSource :=
  ⟨"s1", "Source1", "http://s", some "http://s/q={{key}}", none, some ruleSFix, none, none⟩

/-- A source with no `searchUrl` (structural-validation guard). -/
def srcNoSearchUrl : BookSource :=
  ⟨"s2", "Source2", "http://s2", none, none, some ruleSFix, none, none⟩

/-- A toc list element with chapter title `t` and chapter link `u`:
`.t` holds the title (an empty `t` models an element whose `.t` matches
nothing) and `.u` carries the link in `href`. -/
def chNode (t u : String) : CNode :=
  ⟨⟨1, "ch", none, fun _ => none⟩,
    fun sel =>
      .ok (if sel = ".t" then (if t = "" then emptyQ else ⟨1, t, none, fun _ => none⟩)
           else if sel = ".u" then ⟨1, "", none, fun a => if a = "href" then some u else none⟩
           else emptyQ)⟩

/-- A toc page with three `.ch` elements; the second lacks a title. -/
def tocDoc : CDoc :=
  ⟨rootNode,
    fun sel =>
      .ok (if sel = ".ch" then
            [chNode "C1" "http://s/c1", chNode "" "http://s/c2", chNode "C3" "http://s/c3"]
          else []),
    fun _ _ => none⟩

/-- A pipeline environment serving the toc fixture page. -/
def envToc : SPEnv :=
  ⟨fun _ => tocDoc, fun _ => .ok "tocpage", fun _ => none, fun _ => true,
    fun pat input repl => replaceAllLit input pat repl⟩

/-- The toc rule group of the fixture source. -/
def ruleTFix : RuleToc := ⟨some ".ch", some ".t", some ".u@href"⟩

/-- The fixture toc source. -/
def srcTFix : BookSource :=
  ⟨"s1", "Source1", "http://s", none, none, none, some ruleTFix, none⟩

/-- The fixture shelf book. -/
def bookFix : Book := ⟨"b", "http://s/book", none⟩

/-- The three chapters built from the toc fixture before the validity
filter (the second has an empty title). -/
def csFix : List BookChapter :=
  [⟨"b_0", "b", 0, "C1", "http://s/c1"⟩,
   ⟨"b_1", "b", 1, "", "http://s/c2"⟩,
   ⟨"b_2", "b", 2, "C3", "http://s/c3"⟩]

/-- A chapter page whose `.c` element's `html()` is the raw chapter
HTML of testable property P8. -/
def contentDoc : CDoc :=
  ⟨⟨⟨1, "", none, fun _ => none⟩,
      fun sel =>
        .ok (if sel = ".c" then ⟨1, "", some "<p>Hello</p><br><p>World</p>", fun _ => none⟩
             else emptyQ)⟩,
    fun _ => .ok [], fun _ _ => none⟩

/-- A pipeline environment serving the chapter fixture page. -/
def envContent : SPEnv :=
  ⟨fun _ => contentDoc, fun _ => .ok "chapterpage", fun _ => none, fun _ => true,
    fun pat input repl => replaceAllLit input pat repl⟩

/-- The content rule group of the fixture source (no `replaceRegex`). -/
def ruleCFix : RuleContent := ⟨some ".c@html", none⟩

/-- The fixture content source. -/
def srcCFix : BookSource :=
  ⟨"s1", "Source1", "http://s", none, none, none, none, some ruleCFix⟩

/-- The fixture chapter being fetched. -/
def chapFix : BookChapter := ⟨"b_0", "b", 0, "C1", "http://s/c1"⟩

/- ### Helper lemmas -/

/-- `finishParse` never touches the replace clause it is handed. -/
theorem finishParse_replaceRegex (m : RuleMode) (ru : String) (rr rep : Option String) :
    (finishParse m ru rr rep).replaceRegex = rr := by
  unfold finishParse
  cases lastIndexOfChar ru '@' with
  | none => rfl
  | some i =>
    by_cases hi : 0 < i
    · simp [hi]
    · simp [hi]

/-- `finishParse` never touches the replacement it is handed. -/
theorem finishParse_replacement (m : RuleMode) (ru : String) (rr rep : Option String) :
    (finishParse m ru rr rep).replacement = rep := by
  unfold finishParse
  cases lastIndexOfChar ru '@' with
  | none => rfl
  | some i =>
    by_cases hi : 0 < i
    · simp [hi]
    · simp [hi]

/-- Every string produced by `executeRule` survives the final blank filter,
so it is non-empty. -/
theorem mem_executeRule_ne_empty (ctx : ACtx) (env : REnv) (p : ParsedRule) :
    ∀ r ∈ executeRule ctx env p, r ≠ "" := by
  intro r hr
  unfold executeRule at hr
  exact (of_decide_eq_true (List.mem_filter.mp hr).2).1

/-- Elements of `gslBase` results are non-empty. -/
theorem mem_gslBase_ne_empty (ctx : ACtx) (env : REnv) (s : String) :
    ∀ r ∈ gslBase ctx env s, r ≠ "" := by
  intro r hr
  unfold gslBase at hr
  by_cases h : s = ""
  · simp [h] at hr
  · rw [if_neg h] at hr
    exact mem_executeRule_ne_empty ctx env _ r hr

/-- Elements of `gslNoOr` results are non-empty. -/
theorem mem_gslNoOr_ne_empty (ctx : ACtx) (env : REnv) (s : String) :
    ∀ r ∈ gslNoOr ctx env s, r ≠ "" := by
  intro r hr
  unfold gslNoOr at hr
  by_cases h : s = ""
  · simp [h] at hr
  · rw [if_neg h] at hr
    by_cases ha : jsIncludes s "&&" = true
    · rw [if_pos ha] at hr
      rcases List.mem_flatten.mp hr with ⟨l, hl, hrl⟩
      rcases List.mem_map.mp hl with ⟨p, _, rfl⟩
      exact mem_gslBase_ne_empty ctx env _ r hrl
    · rw [if_neg ha] at hr
      exact mem_executeRule_ne_empty ctx env _ r hr

/-- On a rule with no `||`, `getStringList` is `gslNoOr`. -/
theorem getStringList_no_or (ctx : ACtx) (env : REnv) (s : String)
    (h : jsIncludes s "||" = false) :
    getStringList ctx env s = gslNoOr ctx env s := by
  unfold getStringList gslNoOr
  by_cases he : s = ""
  · simp [he]
  · rw [if_neg he, if_neg he, if_neg (by simp [h])]

/-- On a rule with neither combinator, `gslNoOr` is `gslBase`. -/
theorem gslNoOr_no_and (ctx : ACtx) (env : REnv) (s : String)
    (h : jsIncludes s "&&" = false) :
    gslNoOr ctx env s = gslBase ctx env s := by
  unfold gslNoOr gslBase
  by_cases he : s = ""
  · simp [he]
  · rw [if_neg he, if_neg he, if_neg (by simp [h])]

/-- The `||` loop over exactly two alternatives. -/
theorem firstNonemptyL_pair (x y : List String) :
    firstNonemptyL [x, y] = if x.isEmpty then y else x := by
  by_cases hx : x.isEmpty
  · rw [firstNonemptyL, if_pos hx, if_pos hx]
    cases y with
    | nil => rfl
    | cons a as => rfl
  · rw [firstNonemptyL, if_neg hx, if_neg hx]

/-- Over a list of non-empty strings, "some element is non-empty" is just
non-emptiness of the list. -/
theorem any_ne_empty_eq_not_isEmpty (l : List String) (h : ∀ r ∈ l, r ≠ "") :
    (l.any fun s => !s.isEmpty) = !l.isEmpty := by
  cases l with
  | nil => rfl
  | cons a as =>
    have ha : a.isEmpty = false := by
      cases hae : a.isEmpty
      · rfl
      · exact absurd ((String.isEmpty_iff a).mp hae) (h a (List.mem_cons_self a as))
    simp [List.any_cons, ha]

/- ### Claim theorems -/

/-- C2: for a rule `a||b` (with the split yielding exactly the two
alternatives, both trimmed and free of further top-level `||`),
`getStringList` returns the result of evaluating `a` alone when it
contains at least one non-empty string, and otherwise exactly the result
of evaluating `b` alone. -/
theorem getStringList_or_fallback (ctx : ACtx) (env : REnv) (a b : String)
    (hsplit : jsSplitOn (a ++ "||" ++ b) "||" = [a, b])
    (ha : jsIncludes a "||" = false) (hb : jsIncludes b "||" = false)
    (hta : jsTrim a = a) (htb : jsTrim b = b) :
    getStringList ctx env (a ++ "||" ++ b) =
      if (getStringList ctx env a).any (fun s => !s.isEmpty) then getStringList ctx env a
      else getStringList ctx env b := by
  have hne : (a ++ "||" ++ b) ≠ "" := by
    intro h
    rw [h] at hsplit
    have he : jsSplitOn "" "||" = [""] := rfl
    rw [he] at hsplit
    simp at hsplit
  have hinc : jsIncludes (a ++ "||" ++ b) "||" = true := by
    unfold jsIncludes
    rw [hsplit]
    rfl
  rw [getStringList_no_or ctx env a ha, getStringList_no_or ctx env b hb]
  unfold getStringList
  rw [if_neg hne, if_pos hinc, hsplit]
  simp only [List.map_cons, List.map_nil]
  rw [hta, htb, firstNonemptyL_pair]
  rw [any_ne_empty_eq_not_isEmpty _ (mem_gslNoOr_ne_empty ctx env a)]
  cases hE : (gslNoOr ctx env a).isEmpty <;> simp [hE]

/-- Witness for C2 on the fixture document (`.missing` matches nothing,
`.b` holds `Bar`): the fallback fires. -/
theorem getStringList_or_fallback_witness :
    getStringList ctxAB envLit (".missing@text" ++ "||" ++ ".b@text") = ["Bar"] := by
  have h := getStringList_or_fallback ctxAB envLit ".missing@text" ".b@text"
    (by decide) (by decide) (by decide) (by decide) (by decide)
  exact h.trans (by decide)

/-- C3: for a rule `a&&b` (split yielding exactly the two alternatives,
no top-level `||` anywhere, both alternatives trimmed and combinator-free),
`getStringList` is the concatenation of the two evaluations, in order,
duplicates retained. -/
theorem getStringList_and_concat (ctx : ACtx) (env : REnv) (a b : String)
    (hnor : jsIncludes (a ++ "&&" ++ b) "||" = false)
    (hsplit : jsSplitOn (a ++ "&&" ++ b) "&&" = [a, b])
    (haA : jsIncludes a "&&" = false) (hbA : jsIncludes b "&&" = false)
    (haO : jsIncludes a "||" = false) (hbO : jsIncludes b "||" = false)
    (hta : jsTrim a = a) (htb : jsTrim b = b) :
    getStringList ctx env (a ++ "&&" ++ b) =
      getStringList ctx env a ++ getStringList ctx env b := by
  have hne : (a ++ "&&" ++ b) ≠ "" := by
    intro h
    rw [h] at hsplit
    have he : jsSplitOn "" "&&" = [""] := rfl
    rw [he] at hsplit
    simp at hsplit
  have hincA : jsIncludes (a ++ "&&" ++ b) "&&" = true := by
    unfold jsIncludes
    rw [hsplit]
    rfl
  rw [getStringList_no_or ctx env _ hnor]
  unfold gslNoOr
  rw [if_neg hne, if_pos hincA, hsplit]
  simp only [List.map_cons, List.map_nil]
  rw [hta, htb]
  rw [getStringList_no_or ctx env a haO, getStringList_no_or ctx env b hbO,
    gslNoOr_no_and ctx env a haA, gslNoOr_no_and ctx env b hbA]
  simp [List.flatten]

/-- Witness for C3 on the fixture document (`.a` holds `Foo`, `.b` holds
`Bar`): both non-empty results are concatenated. -/
theorem getStringList_and_concat_witness :
    getStringList ctxAB envLit (".a@text" ++ "&&" ++ ".b@text") = ["Foo", "Bar"] := by
  have h := getStringList_and_concat ctxAB envLit ".a@text" ".b@text"
    (by decide) (by decide) (by decide) (by decide) (by decide) (by decide)
    (by decide) (by decide)
  exact h.trans (by decide)

/-- C4 (code divergence, source defect noted in the spec): on the rule
`.t##a&&b##X` — a trailing replace clause whose pattern contains `&&` —
`getStringList` splits inside the clause, evaluating `.t##a` and `b##X`
as separate whole-content regex rules (the two matches of `/a/g` in the
raw content `aa`), whereas the splitting-immune reading of the same rule
(selector `.t`, replace clause `a&&b → X`) yields `[]` on this document
(no `.t` element). -/
theorem getStringList_splits_inside_replace_clause :
    getStringList ctxRaw envLit ".t##a&&b##X" = ["a", "a"] ∧
    executeRule ctxRaw envLit (parseRule ".t##a&&b##X") = [] :=
  ⟨by decide, by decide⟩

/-- C9: a rule classified by a mode prefix (`@css:`, `@XPath:`/`@xpath:`,
`@json:`, leading `$.`) or wholly wrapped in `{{...}}` never gets a
trailing `##pattern##replacement` clause extracted — the `##` branch of
`parseRule` is in the final `else if`, so mode classification and replace
extraction are mutually exclusive and no post-extraction regex replacement
is applied. -/
theorem parseRule_mode_prefix_no_replace (r : String)
    (h : jsStartsWith (jsTrim r) "@css:" = true ∨
      jsStartsWith (jsTrim r) "@XPath:" = true ∨
      jsStartsWith (jsTrim r) "@xpath:" = true ∨
      jsStartsWith (jsTrim r) "@json:" = true ∨
      jsStartsWith (jsTrim r) "$." = true ∨
      (jsStartsWith (jsTrim r) "\x7b\x7b" = true ∧ jsEndsWith (jsTrim r) "\x7d\x7d" = true)) :
    (parseRule r).replaceRegex = none ∧ (parseRule r).replacement = none := by
  simp only [parseRule]
  split_ifs with h1 h2 h3 h4 h5 h6
  all_goals
    try exact ⟨finishParse_replaceRegex _ _ _ _, finishParse_replacement _ _ _ _⟩
  -- the remaining goal is the ##…##… extraction branch, unreachable given
  -- a mode prefix
  rcases h with hc | hc | hc | hc | hc | ⟨hc, hc'⟩
  · exact absurd hc h1
  · simp [hc] at h2
  · simp [hc] at h2
  · simp [hc] at h3
  · simp [hc] at h3
  · simp [hc, hc'] at h5

/-- Witness for C9: a `@css:` rule and a `$.`-rooted rule each containing
`##…##…` text keep it inside the selector, with no replace clause. -/
theorem parseRule_mode_prefix_no_replace_witness :
    (parseRule "@css:.a##x##y").replaceRegex = none ∧
    (parseRule "$.data##x##y").replaceRegex = none :=
  ⟨(parseRule_mode_prefix_no_replace "@css:.a##x##y" (Or.inl (by decide))).1,
   (parseRule_mode_prefix_no_replace "$.data##x##y"
     (Or.inr (Or.inr (Or.inr (Or.inr (Or.inl (by decide))))))).1⟩

/-- Prefixing `https:` yields an `http`-prefixed string. -/
theorem jsStartsWith_https_append (x : String) :
    jsStartsWith ("https:" ++ x) "http" = true := by
  show List.isPrefixOf _ _ = true
  rw [String.data_append]
  rfl

/-- `getAbsoluteUrl` on an `http`-prefixed url. -/
theorem gau_http (resolve : String → Option String) (x : String)
    (hx : jsStartsWith x "http" = true) : getAbsoluteUrl resolve x = x := by
  have hne : x ≠ "" := by
    intro h
    rw [h] at hx
    exact absurd hx (by decide)
  unfold getAbsoluteUrl
  rw [if_neg hne, if_pos hx]

/-- `getAbsoluteUrl` on a protocol-relative url. -/
theorem gau_proto (resolve : String → Option String) (x : String)
    (hh : jsStartsWith x "http" = false) (hs : jsStartsWith x "//" = true) :
    getAbsoluteUrl resolve x = "https:" ++ x := by
  have hne : x ≠ "" := by
    intro h
    rw [h] at hs
    exact absurd hs (by decide)
  unfold getAbsoluteUrl
  rw [if_neg hne, if_neg (by simp [hh]), if_pos hs]

/-- `getAbsoluteUrl` when resolution fails: the original string, no
exception. -/
theorem gau_fail (resolve : String → Option String) (x : String) (hne : x ≠ "")
    (hh : jsStartsWith x "http" = false) (hs : jsStartsWith x "//" = false)
    (hr : resolve x = none) : getAbsoluteUrl resolve x = x := by
  unfold getAbsoluteUrl
  rw [if_neg hne, if_neg (by simp [hh]), if_neg (by simp [hs]), hr]

/-- `getAbsoluteUrl` when resolution succeeds. -/
theorem gau_resolved (resolve : String → Option String) (x r : String) (hne : x ≠ "")
    (hh : jsStartsWith x "http" = false) (hs : jsStartsWith x "//" = false)
    (hr : resolve x = some r) : getAbsoluteUrl resolve x = r := by
  unfold getAbsoluteUrl
  rw [if_neg hne, if_neg (by simp [hh]), if_neg (by simp [hs]), hr]

/-- C8: `getAbsoluteUrl` (with `resolve` the host
`u ↦ new URL(u, baseUrl).href`, whose outputs are canonical: they
re-resolve to themselves and are never protocol-relative) passes
`http`-prefixed urls through unchanged, is idempotent on every input,
rewrites protocol-relative urls to `https:`, and returns the input
unmodified when resolution fails. -/
theorem getAbsoluteUrl_spec (resolve : String → Option String)
    (hfix : ∀ u r, resolve u = some r → resolve r = some r)
    (hproto : ∀ u r, resolve u = some r → jsStartsWith r "//" = false) :
    (∀ x, jsStartsWith x "http" = true → getAbsoluteUrl resolve x = x) ∧
    (∀ x, getAbsoluteUrl resolve (getAbsoluteUrl resolve x) = getAbsoluteUrl resolve x) ∧
    (∀ x, jsStartsWith x "http" = false → jsStartsWith x "//" = true →
      getAbsoluteUrl resolve x = "https:" ++ x) ∧
    (∀ x, x ≠ "" → jsStartsWith x "http" = false → jsStartsWith x "//" = false →
      resolve x = none → getAbsoluteUrl resolve x = x) := by
  refine ⟨gau_http resolve, ?_, gau_proto resolve, gau_fail resolve⟩
  intro x
  by_cases hne : x = ""
  · subst hne
    rfl
  · cases hh : jsStartsWith x "http" with
    | true =>
      rw [gau_http resolve x hh]
      exact gau_http resolve x hh
    | false =>
      cases hs : jsStartsWith x "//" with
      | true =>
        rw [gau_proto resolve x hh hs]
        exact gau_http resolve _ (jsStartsWith_https_append x)
      | false =>
        cases hr : resolve x with
        | none =>
          rw [gau_fail resolve x hne hh hs hr]
          exact gau_fail resolve x hne hh hs hr
        | some r =>
          rw [gau_resolved resolve x r hne hh hs hr]
          by_cases hre : r = ""
          · subst hre
            rfl
          · cases hrh : jsStartsWith r "http" with
            | true => exact gau_http resolve r hrh
            | false =>
              exact gau_resolved resolve r r hre hrh (hproto x r hr) (hfix x r hr)

/-- Witness for C8 with the always-failing resolver (the canonicality
hypotheses hold vacuously): absolute pass-through, idempotence on a
protocol-relative input, the `https:` rewrite, and failure
pass-through. -/
theorem getAbsoluteUrl_spec_witness :
    getAbsoluteUrl noResolve "http://a.b/c" = "http://a.b/c" ∧
    getAbsoluteUrl noResolve (getAbsoluteUrl noResolve "//cdn.x/a") =
      getAbsoluteUrl noResolve "//cdn.x/a" ∧
    getAbsoluteUrl noResolve "//cdn.x/a" = "https:" ++ "//cdn.x/a" ∧
    getAbsoluteUrl noResolve "rel/path" = "rel/path" := by
  have h := getAbsoluteUrl_spec noResolve
    (fun u r hr => Option.noConfusion hr) (fun u r hr => Option.noConfusion hr)
  exact ⟨h.1 _ (by decide), h.2.1 _, h.2.2.1 _ (by decide) (by decide),
    h.2.2.2 _ (by decide) (by decide) (by decide) rfl⟩

/-- C7: expanding `http://x.test/s?q={{key}}&p={{page}}` with keyword `龙`
and page 2 yields a GET request for `http://x.test/s?q=%E9%BE%99&p=2` with
no body ({{key}} expands to the URL-encoded keyword, {{page}} to the page
number); with the `url@body` POST form, the same substitution applies in
the body. -/
theorem analyzeUrl_template_expansion :
    analyzeUrl uenvTriv "http://x.test/s?q={{key}}&p={{page}}" "" "龙" 2 none =
      ⟨"GET", "http://x.test/s?q=%E9%BE%99&p=2", none, [("User-Agent", analyzeUrlUA)]⟩ ∧
    analyzeUrl uenvTriv "http://x.test/s@q={{key}}&p={{page}}" "" "龙" 2 none =
      ⟨"POST", "http://x.test/s", some "q=%E9%BE%99&p=2", [("User-Agent", analyzeUrlUA)]⟩ :=
  ⟨by decide, by decide⟩

/-- C5 (counterexample): the generic cleanup pass maps
`<p>Hello</p><br><p>World</p>` to `Hello\n\nWorld`, not to the claimed
`Hello\nWorld` — the source replaces `<p>` with a newline instead of
stripping it. -/
theorem getChapterContent_cleanup_counterexample :
    cleanContent "<p>Hello</p><br><p>World</p>" ≠ "Hello\nWorld" ∧
    getChapterContent envContent srcCFix chapFix ≠ "Hello\nWorld" :=
  ⟨by decide, by decide⟩

/-- C5 (amended): when the content rule extracts the raw HTML
`<p>Hello</p><br><p>World</p>` and the source has no `replaceRegex`,
`getChapterContent`'s generic cleanup yields exactly `Hello\n\nWorld`:
`<br>` becomes a newline, `<p>` becomes a newline (it is not stripped),
`</p>` is stripped, remaining tags are stripped, the four entities are
unescaped, runs of 3+ newlines collapse to 2, and the result is
trimmed, in that order. -/
theorem getChapterContent_cleanup_amended (env : SPEnv) (src : BookSource)
    (chap : BookChapter) (rc : RuleContent) (html : String)
    (h1 : src.ruleContent = some rc)
    (h2 : env.fetch ⟨chap.url, "GET", none, []⟩ = .ok html)
    (h3 : RuleParser.parseRule ⟨env.load html, src.bookSourceUrl⟩ rc.content none =
      .ok "<p>Hello</p><br><p>World</p>")
    (h4 : rc.replaceRegex = none) :
    getChapterContent env src chap = "Hello\n\nWorld" := by
  unfold getChapterContent
  rw [h1]
  simp only [h2, h3, h4]
  decide

/-- Witness for the amended C5 on the fixture chapter page. -/
theorem getChapterContent_cleanup_amended_witness :
    getChapterContent envContent srcCFix chapFix = "Hello\n\nWorld" :=
  getChapterContent_cleanup_amended envContent srcCFix chapFix ruleCFix "chapterpage"
    rfl rfl rfl rfl

/-- Bind inversion in the exception monad of the pipeline. -/
theorem jsE_bind_ok_iff {α β : Type} (x : JsE α) (f : α → JsE β) (v : β) :
    (x >>= f) = .ok v ↔ ∃ a, x = .ok a ∧ f a = .ok v := by
  cases x with
  | error e =>
    constructor
    · intro h
      exact absurd h (by simp [Bind.bind, Except.bind])
    · rintro ⟨a, ha, _⟩
      exact absurd ha (by simp)
  | ok a =>
    constructor
    · intro h
      exact ⟨a, rfl, h⟩
    · rintro ⟨a', ha, hf⟩
      cases ha
      exact hf

/-- `pure` inversion in the exception monad. -/
theorem jsE_pure_ok_iff {β : Type} (b v : β) :
    (pure b : JsE β) = .ok v ↔ b = v := by
  constructor
  · intro h
    exact Except.ok.inj h
  · intro h
    rw [h]
    rfl

/-- Computation rule for a successful bind. -/
theorem jsE_bind_ok {α β : Type} (a : α) (f : α → JsE β) :
    ((Except.ok a : JsE α) >>= f) = f a := rfl

/-- A successful `mapME` has the length of its input and is its pointwise
image. -/
theorem mapME_ok_get {α β : Type} (f : α → JsE β) :
    ∀ (l : List α) (bs : List β), mapME f l = .ok bs →
      bs.length = l.length ∧
      ∀ i (hi : i < bs.length) (hl : i < l.length), f (l.get ⟨i, hl⟩) = .ok (bs.get ⟨i, hi⟩) := by
  intro l
  induction l with
  | nil =>
    intro bs h
    have hb : ([] : List β) = bs := (jsE_pure_ok_iff _ _).mp h
    cases hb
    exact ⟨rfl, fun i hi hl => absurd hi (by simp)⟩
  | cons a as ih =>
    intro bs h
    unfold mapME at h
    rcases (jsE_bind_ok_iff _ _ _).mp h with ⟨b, hb, h2⟩
    rcases (jsE_bind_ok_iff _ _ _).mp h2 with ⟨bs', hbs', h3⟩
    have hbeq : b :: bs' = bs := (jsE_pure_ok_iff _ _).mp h3
    cases hbeq
    rcases ih bs' hbs' with ⟨hlen, hget⟩
    refine ⟨by simp [hlen], ?_⟩
    intro i hi hl
    cases i with
    | zero => exact hb
    | succ n =>
      exact hget n (by simpa using hi) (by simpa using hl)

/-- `idxFrom` preserves length. -/
theorem idxFrom_length (n : Nat) (l : List α) : (idxFrom n l).length = l.length := by
  induction l generalizing n with
  | nil => rfl
  | cons a as ih => simp [idxFrom, ih]

/-- The `i`-th entry of `idxFrom n l` is `(n + i, l[i])`. -/
theorem idxFrom_get (l : List α) :
    ∀ (n i : Nat) (hi : i < (idxFrom n l).length) (hl : i < l.length),
      (idxFrom n l).get ⟨i, hi⟩ = (n + i, l.get ⟨i, hl⟩) := by
  induction l with
  | nil => intro n i hi hl; exact absurd hl (by simp)
  | cons a as ih =>
    intro n i hi hl
    cases i with
    | zero => simp [idxFrom]
    | succ m =>
      have := ih (n + 1) m (by simpa [idxFrom] using hi) (by simpa using hl)
      simp only [idxFrom, List.get_cons_succ, this]
      congr 1
      omega

/-- A chapter successfully built by `chapterOfElem` carries its element
position as `index` and the synthesized id `bookId_index`. -/
theorem chapterOfElem_ok (parser : RuleParser) (rule : RuleToc) (bookId : String)
    (i : Nat) (el : CNode) (c : BookChapter)
    (h : chapterOfElem parser rule bookId i el = .ok c) :
    c.index = i ∧ c.id = bookId ++ "_" ++ toString i ∧ c.bookId = bookId := by
  unfold chapterOfElem at h
  rcases (jsE_bind_ok_iff _ _ _).mp h with ⟨t, _, h2⟩
  rcases (jsE_bind_ok_iff _ _ _).mp h2 with ⟨u, _, h3⟩
  have hc := (jsE_pure_ok_iff _ _).mp h3
  cases hc
  exact ⟨rfl, rfl, rfl⟩

/-- Every book list returned by a successful `searchParse` run passed the
validity filter. -/
theorem searchParse_ok_filter (env : SPEnv) (source : BookSource) (rule : RuleSearch)
    (html : String) (books : List ScrapedBook)
    (h : searchParse env source rule html = .ok books) :
    ∀ b ∈ books, validBook b = true := by
  simp only [searchParse] at h
  rcases (jsE_bind_ok_iff _ _ _).mp h with ⟨els, _, h2⟩
  rcases (jsE_bind_ok_iff _ _ _).mp h2 with ⟨bs, _, h3⟩
  have hbeq := (jsE_pure_ok_iff _ _).mp h3
  cases hbeq
  intro b hb
  exact (List.mem_filter.mp hb).2

/-- A successful `tocParse` run is the filtered chapter list determined by
its element list and chapter list. -/
theorem tocParse_eq (env : SPEnv) (source : BookSource) (rule : RuleToc) (bookId : String)
    (html : String) (els : List CNode) (cs : List BookChapter)
    (hels : RuleParser.parseRuleList ⟨env.load html, source.bookSourceUrl⟩ rule.chapterList =
      .ok els)
    (hcs : mapME (fun p => chapterOfElem ⟨env.load html, source.bookSourceUrl⟩ rule bookId
      p.1 p.2) (idxFrom 0 els) = .ok cs) :
    tocParse env source rule bookId html = .ok (cs.filter validChapter) := by
  simp only [tocParse]
  rw [hels]
  simp only [jsE_bind_ok]
  rw [hcs]
  simp only [jsE_bind_ok]
  rfl

/-- C1: `searchBooks` is total (the embedding returns a value on every
input) and contains failures: when every fetch is rejected (unreachable
host, timeout) the call returns `[]`; when `searchUrl` is absent or empty
or `ruleSearch` is absent, it returns `[]` immediately with no fetch
performed. -/
theorem searchBooks_failure_containment (env : SPEnv) (src : BookSource) (kw : String) :
    ((∀ q, env.fetch q = .error ()) → (searchBooks env src kw).books = []) ∧
    (src.searchUrl = none → searchBooks env src kw = ⟨[], false⟩) ∧
    (src.searchUrl = some "" → searchBooks env src kw = ⟨[], false⟩) ∧
    (src.ruleSearch = none → searchBooks env src kw = ⟨[], false⟩) := by
  refine ⟨?_, ?_, ?_, ?_⟩
  · intro hf
    unfold searchBooks
    split
    · rfl
    · split
      · rfl
      · split
        · rfl
        · rw [hf]
  · intro h
    unfold searchBooks
    rw [h]
  · intro h
    unfold searchBooks
    rw [h]
    rfl
  · intro h
    unfold searchBooks
    rw [h]
    split
    · rfl
    · split
      · rfl
      · rfl

/-- Witness for C1: the fixture source against an environment rejecting
every fetch yields `[]`, and a source with no `searchUrl` returns
`⟨[], false⟩` (no fetch) in the same failing environment. -/
theorem searchBooks_failure_containment_witness :
    (searchBooks envFailFetch srcSFix "k").books = [] ∧
    searchBooks envFailFetch srcNoSearchUrl "k" = ⟨[], false⟩ :=
  ⟨(searchBooks_failure_containment envFailFetch srcSFix "k").1 (fun _ => rfl),
   (searchBooks_failure_containment envFailFetch srcNoSearchUrl "k").2.1 rfl⟩

/-- C6: every element of the list returned by `searchBooks` has a
non-empty `name` and a non-empty `bookUrl` (entries missing either are
dropped by the validity filter, never surfaced as an error). -/
theorem searchBooks_result_validity (env : SPEnv) (src : BookSource) (kw : String) :
    ∀ b ∈ (searchBooks env src kw).books, b.name ≠ "" ∧ b.bookUrl ≠ "" := by
  intro b hb
  unfold searchBooks at hb
  split at hb
  · simp at hb
  · split at hb
    · simp at hb
    · split at hb
      · simp at hb
      · split at hb
        · simp at hb
        · split at hb
          · rename_i rule hfetch books hparse
            exact of_decide_eq_true (searchParse_ok_filter _ _ _ _ _ hparse b hb)
          · simp at hb

/-- Witness for C6: the fixture search page yields one valid entry, whose
`name` and `bookUrl` are non-empty. -/
theorem searchBooks_result_validity_witness :
    (⟨"s1", "Source1", "T1", "", "", "", "", "", "", "http://s/b1"⟩ : ScrapedBook).name ≠ "" ∧
    (⟨"s1", "Source1", "T1", "", "", "", "", "", "", "http://s/b1"⟩ : ScrapedBook).bookUrl ≠ "" :=
  searchBooks_result_validity envSearch srcSFix "k"
    ⟨"s1", "Source1", "T1", "", "", "", "", "", "", "http://s/b1"⟩ (by decide)

/-- C10: each chapter returned by `getBookToc` carries as `index` the
zero-based position of its element among ALL elements matched by the
`chapterList` rule — assigned before invalid entries are dropped — and its
id is the synthesized `bookId_index`; the returned list is the filtered
chapter list, so surviving chapters keep their pre-drop positions and the
returned `index` values need not be contiguous. -/
theorem getBookToc_index_assignment (env : SPEnv) (src : BookSource) (book : Book)
    (rule : RuleToc) (html : String) (els : List CNode) (cs : List BookChapter)
    (hr : src.ruleToc = some rule)
    (hf : env.fetch ⟨tocUrlOf book, "GET", none, []⟩ = .ok html)
    (hels : RuleParser.parseRuleList ⟨env.load html, src.bookSourceUrl⟩ rule.chapterList =
      .ok els)
    (hcs : mapME (fun p => chapterOfElem ⟨env.load html, src.bookSourceUrl⟩ rule book.id
      p.1 p.2) (idxFrom 0 els) = .ok cs) :
    getBookToc env src book = cs.filter validChapter ∧
    cs.length = els.length ∧
    (∀ i (hi : i < cs.length), (cs.get ⟨i, hi⟩).index = i ∧
      (cs.get ⟨i, hi⟩).id = book.id ++ "_" ++ toString i) ∧
    (∀ c ∈ getBookToc env src book, c.id = book.id ++ "_" ++ toString c.index) := by
  have htoc : getBookToc env src book = cs.filter validChapter := by
    unfold getBookToc
    split
    · rename_i heq
      rw [hr] at heq
      exact Option.noConfusion heq
    · rename_i rule' heq
      rw [hr] at heq
      cases Option.some.inj heq
      split
      · rename_i heq2
        rw [hf] at heq2
        exact absurd heq2 (by simp)
      · rename_i html' heq2
        rw [hf] at heq2
        cases Except.ok.inj heq2
        split
        · rename_i chs heq3
          rw [tocParse_eq env src rule book.id html els cs hels hcs] at heq3
          exact (Except.ok.inj heq3).symm
        · rename_i heq3
          rw [tocParse_eq env src rule book.id html els cs hels hcs] at heq3
          exact absurd heq3 (by simp)
  rcases mapME_ok_get _ _ _ hcs with ⟨hlen, hget⟩
  have hlen' : cs.length = els.length := by rw [hlen, idxFrom_length]
  have hidx : ∀ i (hi : i < cs.length), (cs.get ⟨i, hi⟩).index = i ∧
      (cs.get ⟨i, hi⟩).id = book.id ++ "_" ++ toString i := by
    intro i hi
    have hl : i < (idxFrom 0 els).length := by rw [idxFrom_length]; omega
    have hle : i < els.length := by omega
    have hfi := hget i hi hl
    rw [idxFrom_get els 0 i hl hle] at hfi
    simp only [Nat.zero_add] at hfi
    rcases chapterOfElem_ok _ _ _ _ _ _ hfi with ⟨h1, h2, _⟩
    exact ⟨h1, h2⟩
  refine ⟨htoc, hlen', hidx, ?_⟩
  intro c hc
  rw [htoc] at hc
  have hcs' : c ∈ cs := (List.mem_filter.mp hc).1
  rcases List.mem_iff_get.mp hcs' with ⟨⟨i, hi⟩, hgeti⟩
  rcases hidx i hi with ⟨h1, h2⟩
  rw [← hgeti, h1, h2]

/-- Witness for C10 on the fixture toc page (three matched elements, the
middle one lacking a title): the surviving chapters keep indices 0 and 2 —
not contiguous — with ids `b_0` and `b_2`. -/
theorem getBookToc_index_assignment_witness :
    getBookToc envToc srcTFix bookFix = csFix.filter validChapter ∧
    getBookToc envToc srcTFix bookFix =
      [⟨"b_0", "b", 0, "C1", "http://s/c1"⟩, ⟨"b_2", "b", 2, "C3", "http://s/c3"⟩] := by
  have h := getBookToc_index_assignment envToc srcTFix bookFix ruleTFix "tocpage"
    [chNode "C1" "http://s/c1", chNode "" "http://s/c2", chNode "C3" "http://s/c3"]
    csFix rfl rfl rfl rfl
  exact ⟨h.1, h.1.trans (by decide)⟩
